import Mathlib

/-!
Verification of the Niya board-game solver (a 4x4 tile-placement game).

The development shallowly embeds the repository's Python sources:

* `solver.py` — win-pattern tables, legal-move generation, the minimax core
  with alpha-beta pruning and a transposition table, and the solve
  orchestrator (`solve_board`, `_solve_board_python`, `_analyze_p2_responses`);
* `utils.py`  — the spatial-transform table, the canonicalizer, the cheap
  `is_canonical` check, and the permutation indexer
  (`get_permutation` / `board_to_perm_index`);
* `models.py` — the `Outcome` enum, `P2Response` and `SolveResult` records.

Python lists/tuples become Lean `List`s, Python ints become `Nat`/`Int`
(scores are `Int` because the sentinels are -2/+2), Python dict-based
transposition tables become association lists threaded through the
recursion, and `None`-able values become `Option`s.  The minimax recursion
is fueled: each recursive call places a marker on a previously empty cell,
so nesting depth is at most 17 and the wrapper `minimax` passes fuel 17,
which can never be exhausted; the fuel-0 branch is unreachable filler.

The embedded minimax additionally reports, in the `cuts` field, the keys of
the transposition-table stores that were performed at nodes whose child
loop was terminated by the `beta <= alpha` break.  This instrumentation is
additive: the `res` and `cache` components follow `solver.py` line by line.
-/

/-- Tiles are (plant index, poem index) pairs, mirroring `Tile = tuple[int, int]`. -/
abbrev Tile := Nat × Nat

/-- Boards are 16 tiles in row-major order, mirroring `Board = list[Tile]`. -/
abbrev Board := List Tile

-- Outcome indices used in the solver hot path (`_OUT_*` in solver.py).
def OUT_ROW : Nat := 0
def OUT_COL : Nat := 1
def OUT_MAIN_DIAG : Nat := 2
def OUT_ANTI_DIAG : Nat := 3
def OUT_SQUARE : Nat := 4
def OUT_BLOCKADE : Nat := 5
def OUT_DRAW : Nat := 6

/-- Row mask construction: `_row_mask |= 1 << (_i * 4 + _j)` for `_j in range(4)`. -/
def rowMaskOf (i : Nat) : Nat :=
  (List.range 4).foldl (fun m j => m ||| (1 <<< (i * 4 + j))) 0

/-- Column mask construction: `_col_mask |= 1 << (_j * 4 + _i)` for `_j in range(4)`. -/
def colMaskOf (i : Nat) : Nat :=
  (List.range 4).foldl (fun m j => m ||| (1 <<< (j * 4 + i))) 0

/-- Main diagonal mask `_diag1 = (1 << 0) | (1 << 5) | (1 << 10) | (1 << 15)`. -/
def diag1Mask : Nat := (1 <<< 0) ||| (1 <<< 5) ||| (1 <<< 10) ||| (1 <<< 15)

/-- Anti diagonal mask `_diag2 = (1 << 3) | (1 << 6) | (1 << 9) | (1 << 12)`. -/
def diag2Mask : Nat := (1 <<< 3) ||| (1 <<< 6) ||| (1 <<< 9) ||| (1 <<< 12)

/-- Square mask for top-left corner `(r, c)`:
`_square = (1 << _idx) | (1 << (_idx+1)) | (1 << (_idx+4)) | (1 << (_idx+5))`
with `_idx = _r * 4 + _c`. -/
def squareMaskOf (r c : Nat) : Nat :=
  let idx := r * 4 + c
  (1 <<< idx) ||| (1 <<< (idx + 1)) ||| (1 <<< (idx + 4)) ||| (1 <<< (idx + 5))

/-- The `WIN_MASKS` table from solver.py, in construction order: for each
`i in range(4)` the row mask then the column mask, then the two diagonals,
then the nine 2x2 squares for `r, c in range(3)`. -/
def WIN_MASKS : List (Nat × Nat) :=
  ((List.range 4).flatMap fun i => [(rowMaskOf i, OUT_ROW), (colMaskOf i, OUT_COL)])
    ++ [(diag1Mask, OUT_MAIN_DIAG), (diag2Mask, OUT_ANTI_DIAG)]
    ++ ((List.range 3).flatMap fun r =>
          (List.range 3).map fun c => (squareMaskOf r c, OUT_SQUARE))

/-- Opening cells (`OPENING_INDICES` in solver.py): P1 must start on an edge. -/
def OPENING_INDICES : List Nat := [0, 1, 2, 3, 4, 7, 8, 11, 12, 13, 14, 15]

def P1_WINS : Int := 1
def P1_LOSES : Int := -1
def DRAW_SCORE : Int := 0

-- Integer sentinels replacing float infinities (`_INF` / `_NEG_INF`).
def INF_SENT : Int := 2
def NEG_INF_SENT : Int := -2

/-- The outcome-or-(-1) check `_check_win_outcome` from solver.py, with the
result as `Int` so that the no-win sentinel -1 is representable. -/
def check_win_outcome (mask : Nat) : Int :=
  match WIN_MASKS.find? (fun wo => mask &&& wo.1 == wo.1) with
  | some wo => (wo.2 : Int)
  | none => -1

/-- Legal-move generation for a non-opening move, as inlined in `minimax`
(and equal to the `last_move_idx is not None` branch of `get_legal_moves`):
all empty cells whose tile shares the plant or the poem of the last tile. -/
def movesFrom (board : Board) (takenMask : Nat) (lastMoveIdx : Nat) : List Nat :=
  let lastTile := board.getD lastMoveIdx (0, 0)
  (List.range 16).filter fun i =>
    takenMask &&& (1 <<< i) == 0 &&
      (let curr := board.getD i (0, 0)
       curr.1 == lastTile.1 || curr.2 == lastTile.2)

/-- The `get_legal_moves` function from solver.py: opening cells when no
move has been played yet, otherwise attribute-compatible empty cells. -/
def get_legal_moves (board : Board) (takenMask : Nat) (lastMoveIdx : Option Nat) :
    List Nat :=
  match lastMoveIdx with
  | none => OPENING_INDICES
  | some last => movesFrom board takenMask last

/-- Transposition-table keys `(p1_mask, p2_mask, last_move_idx, is_p1_turn)`. -/
abbrev CacheKey := Nat × Nat × Nat × Bool

/-- Transposition-table values: the `(score, outcome_index, game_depth)` triple. -/
abbrev CacheVal := Int × Nat × Nat

/-- The transposition table, a Python dict modelled as an association list
where insertion prepends and lookup takes the first (most recent) match. -/
abbrev Cache := List (CacheKey × CacheVal)

/-- Dict lookup `cache.get(cache_key)`; `none` when the solver was called
with `cache=None` (no table at all). -/
def cacheLookup (cache : Option Cache) (k : CacheKey) : Option CacheVal :=
  match cache with
  | none => none
  | some entries => (entries.find? fun kv => decide (kv.1 = k)).map (·.2)

/-- Dict store `cache[cache_key] = result`; a no-op when there is no table. -/
def cacheStore (cache : Option Cache) (k : CacheKey) (v : CacheVal) : Option Cache :=
  match cache with
  | none => none
  | some entries => some ((k, v) :: entries)

/-- Result of a `minimax` call: the returned triple, the transposition table
after the call, and the instrumentation record `cuts` listing the keys of
stores made at nodes whose child loop ended in the `beta <= alpha` break. -/
structure MMOut where
  res : CacheVal
  cache : Option Cache
  cuts : List CacheKey

/-- State returned by a child loop: the best triple found, the table, the
cut-store keys accumulated in the subtree, and whether the loop was left by
the `beta <= alpha` break. -/
structure LoopOut where
  best : CacheVal
  cache : Option Cache
  cuts : List CacheKey
  broke : Bool

/-- Signature of a recursive minimax call with the board fixed: masks, last
move, side to move, window, depth, and the threaded transposition table. -/
abbrev MMFun := Nat → Nat → Nat → Bool → Int → Int → Nat → Option Cache → MMOut

/-- The maximizing (P1) child loop of `minimax`, with the recursive call
passed as `child`: update the best triple when the child score is strictly
larger, raise alpha, break when `beta <= alpha`. -/
def maxLoop (child : MMFun) (p1Mask p2Mask : Nat) (moves : List Nat)
    (alpha beta : Int) (nextDepth : Nat) (cache : Option Cache) (best : CacheVal) :
    LoopOut :=
  match moves with
  | [] => ⟨best, cache, [], false⟩
  | move :: rest =>
    let r := child (p1Mask ||| (1 <<< move)) p2Mask move false
      alpha beta nextDepth cache
    let best' := if r.res.1 > best.1 then r.res else best
    let alpha' := if r.res.1 > alpha then r.res.1 else alpha
    if beta ≤ alpha' then ⟨best', r.cache, r.cuts, true⟩
    else
      let lp := maxLoop child p1Mask p2Mask rest alpha' beta nextDepth
        r.cache best'
      ⟨lp.best, lp.cache, r.cuts ++ lp.cuts, lp.broke⟩

/-- The minimizing (P2) child loop of `minimax`, with the recursive call
passed as `child`: update the best triple when the child score is strictly
smaller, lower beta, break when `beta <= alpha`. -/
def minLoop (child : MMFun) (p1Mask p2Mask : Nat) (moves : List Nat)
    (alpha beta : Int) (nextDepth : Nat) (cache : Option Cache) (best : CacheVal) :
    LoopOut :=
  match moves with
  | [] => ⟨best, cache, [], false⟩
  | move :: rest =>
    let r := child p1Mask (p2Mask ||| (1 <<< move)) move true
      alpha beta nextDepth cache
    let best' := if r.res.1 < best.1 then r.res else best
    let beta' := if r.res.1 < beta then r.res.1 else beta
    if beta' ≤ alpha then ⟨best', r.cache, r.cuts, true⟩
    else
      let lp := minLoop child p1Mask p2Mask rest alpha beta' nextDepth
        r.cache best'
      ⟨lp.best, lp.cache, r.cuts ++ lp.cuts, lp.broke⟩

/-- One level of the `minimax` body of solver.py, with the recursive call
abstracted as `child`.  Steps, in source order: transposition lookup,
previous-move win check over `WIN_MASKS`, full-board draw at depth 16,
inlined legal-move generation, blockade, then the alpha-beta child loop for
the player to move; every computed triple is stored in the table before
returning. -/
def minimaxStep (board : Board) (child : MMFun) : MMFun :=
  fun p1Mask p2Mask lastMoveIdx isP1Turn alpha beta depth cache =>
    let cacheKey : CacheKey := (p1Mask, p2Mask, lastMoveIdx, isP1Turn)
    match cacheLookup cache cacheKey with
    | some t => ⟨t, cache, []⟩
    | none =>
      let prevMask := if isP1Turn then p2Mask else p1Mask
      match WIN_MASKS.find? (fun wo => prevMask &&& wo.1 == wo.1) with
      | some wo =>
        let score := if isP1Turn then P1_LOSES else P1_WINS
        let result := (score, wo.2, depth)
        ⟨result, cacheStore cache cacheKey result, []⟩
      | none =>
        if depth == 16 then
          let result := (DRAW_SCORE, OUT_DRAW, 16)
          ⟨result, cacheStore cache cacheKey result, []⟩
        else
          let moves := movesFrom board (p1Mask ||| p2Mask) lastMoveIdx
          if moves.isEmpty then
            let score := if isP1Turn then P1_LOSES else P1_WINS
            let result := (score, OUT_BLOCKADE, depth)
            ⟨result, cacheStore cache cacheKey result, []⟩
          else if isP1Turn then
            let lp := maxLoop child p1Mask p2Mask moves alpha beta (depth + 1)
              cache (NEG_INF_SENT, OUT_DRAW, 16)
            ⟨lp.best, cacheStore lp.cache cacheKey lp.best,
              lp.cuts ++ (if lp.broke && lp.cache.isSome then [cacheKey] else [])⟩
          else
            let lp := minLoop child p1Mask p2Mask moves alpha beta (depth + 1)
              cache (INF_SENT, OUT_DRAW, 16)
            ⟨lp.best, cacheStore lp.cache cacheKey lp.best,
              lp.cuts ++ (if lp.broke && lp.cache.isSome then [cacheKey] else [])⟩

/-- The fueled minimax: `fuel` bounds the recursion nesting, and the fuel-0
fallback is unreachable filler for the solver's actual calls. -/
def minimaxF (fuel : Nat) (board : Board) : MMFun :=
  match fuel with
  | 0 => fun _ _ _ _ _ _ depth cache => ⟨(0, OUT_DRAW, depth), cache, []⟩
  | fuel + 1 => minimaxStep board (minimaxF fuel board)

/-- The `minimax` entry point.  A recursive call always places a marker on a
cell that was empty, so the recursion nests at most 17 levels deep and fuel
17 behaves exactly like the unfueled Python function. -/
def minimax (board : Board) (p1Mask p2Mask lastMoveIdx : Nat) (isP1Turn : Bool)
    (alpha beta : Int) (depth : Nat) (cache : Option Cache) : MMOut :=
  minimaxF 17 board p1Mask p2Mask lastMoveIdx isP1Turn alpha beta depth cache

/-- The sorted 16-tile pool `sorted([(p, s) for p in range(4) for s in range(4)])`
(the comprehension already lists the pairs in sorted order). -/
def sortedPool : List Tile :=
  (List.range 4).flatMap fun p => (List.range 4).map fun s => ((p, s) : Tile)

/-! Embedding of models.py: the outcome enumeration and result records. -/

/-- The `Outcome` enum of models.py (five win methods, blockade, draw, and
the `Duplicate` sentinel used for boards skipped by the canonical check). -/
inductive Outcome where
  | ROW
  | COLUMN
  | MAIN_DIAGONAL
  | ANTI_DIAGONAL
  | SQUARE
  | BLOCKADE
  | DRAW
  | DUPLICATE
deriving DecidableEq

/-- The `OUTCOME_TABLE` of solver.py mapping hot-path outcome indices back
to the enum (the `Duplicate` sentinel is deliberately not in the table). -/
def OUTCOME_TABLE : List Outcome :=
  [Outcome.ROW, Outcome.COLUMN, Outcome.MAIN_DIAGONAL, Outcome.ANTI_DIAGONAL,
   Outcome.SQUARE, Outcome.BLOCKADE, Outcome.DRAW]

/-- Position classification from models.py: corners are cells 0, 3, 12, 15;
everything else (including the -1 used for "no move") is classified "edge". -/
def classify_position (idx : Int) : String :=
  if idx = 0 ∨ idx = 3 ∨ idx = 12 ∨ idx = 15 then "corner" else "edge"

/-- The `P2Response` record: P2's optimal reply to one P1 opening. -/
structure P2Response where
  p1_move : Nat
  p2_best_move : Int
  is_p1_win : Bool
  outcome : Outcome
deriving DecidableEq

/-- The `SolveResult` record of models.py.  Counts are `Int` because the
Python code computes `p2_wins_count` by subtraction over Python ints. -/
structure SolveResult where
  is_p1_win : Option Bool
  is_draw : Bool
  best_move : Int
  outcome : Outcome
  game_depth : Nat
  best_move_position : String
  p1_wins_count : Int
  p2_wins_count : Int
  draws_count : Int
  p2_responses : List P2Response
deriving DecidableEq

/-- The `SolveResult.duplicate()` factory for non-canonical boards. -/
def SolveResult.duplicate : SolveResult :=
  { is_p1_win := none, is_draw := false, best_move := -1,
    outcome := Outcome.DUPLICATE, game_depth := 0, best_move_position := "",
    p1_wins_count := 0, p2_wins_count := 0, draws_count := 0,
    p2_responses := [] }

/-! Embedding of utils.py: spatial transforms, label permutations, the
lexicographic board order, the canonicalizer and the permutation indexer. -/

/-- The `get_transforms` function of utils.py, translated list operation by
list operation (`zip(*m)` is `List.transpose`, `reversed` / `[::-1]` is
`List.reverse`).  Note that the `d2_ref` comprehension reverses each row of
the transposed flipped grid, which reproduces `d1_ref` (the main transpose)
instead of the anti-transpose its comment announces. -/
def get_transforms : List (List Nat) :=
  let base := List.range 16
  let rows := (List.range 4).map fun i => (base.drop (i * 4)).take 4
  let r0 := rows
  let r90 := r0.transpose.map List.reverse
  let r180 := r90.transpose.map List.reverse
  let r270 := r180.transpose.map List.reverse
  let h_ref := r0.reverse
  let v_ref := r0.map List.reverse
  let d1_ref := r0.transpose
  let d2_ref := r0.reverse.transpose.map List.reverse
  [r0, r90, r180, r270, h_ref, v_ref, d1_ref, d2_ref].map List.flatten

/-- The precomputed `TRANSFORM_MAPS` table. -/
def TRANSFORM_MAPS : List (List Nat) := get_transforms

/-- Permutation enumeration, structurally recursive on a length bound: pick
each element in turn as the head and recurse on the remainder. -/
def permsLexGo : Nat → List Nat → List (List Nat)
  | 0, _ => [[]]
  | n + 1, l => l.flatMap fun x => (permsLexGo n (l.erase x)).map (x :: ·)

/-- All permutations of a list of distinct naturals in lexicographic order,
matching the enumeration order of `itertools.permutations` on a sorted
input. -/
def permsLex (l : List Nat) : List (List Nat) := permsLexGo l.length l

/-- The `_LABEL_PERMS` table: `list(permutations(range(4)))`. -/
def LABEL_PERMS : List (List Nat) := permsLex (List.range 4)

/-- Python comparison of two tiles (pairs of ints): lexicographic. -/
def tileLtB (a b : Tile) : Bool :=
  a.1 < b.1 || (a.1 == b.1 && a.2 < b.2)

/-- Python comparison of two tile sequences: strict lexicographic order,
comparing elementwise at the first position where the sequences differ. -/
def boardLtB : List Tile → List Tile → Bool
  | [], [] => false
  | [], _ :: _ => true
  | _ :: _, [] => false
  | a :: xs, b :: ys => if a = b then boardLtB xs ys else tileLtB a b

/-- The spatial image `tuple(bt[mapping[i]] for i in range(16))` used inside
`canonicalize_board`. -/
def spatialOf (board : Board) (mapping : List Nat) : Board :=
  (List.range 16).map fun i => board.getD (mapping.getD i 0) (0, 0)

/-- Relabeling by a plant permutation and a poem permutation, with the
optional plant-poem swap: the two comprehensions
`tuple((pp[t[0]], sp[t[1]]) for t in spatial)` (no swap) and
`tuple((pp[t[1]], sp[t[0]]) for t in spatial)` (swap). -/
def relabel (pp sp : List Nat) (swapAttrs : Bool) (b : Board) : Board :=
  b.map fun t =>
    if swapAttrs then (pp.getD t.2 0, sp.getD t.1 0)
    else (pp.getD t.1 0, sp.getD t.2 0)

/-- The `is_canonical` check of utils.py: no image of the board under
`TRANSFORM_MAPS` (`tuple(board_tuple[i] for i in mapping)`) is strictly
lexicographically smaller than the board itself. -/
def is_canonical (board : Board) : Bool :=
  TRANSFORM_MAPS.all fun mapping =>
    !(boardLtB (mapping.map fun i => board.getD i (0, 0)) board)

/-- The pure-Python fallback of `canonicalize_board` from utils.py: fold the
running lexicographic minimum over all spatial transforms, plant and poem
label permutations, and both swap options. -/
def canonicalize_board (board : Board) : Board :=
  let bt := board
  TRANSFORM_MAPS.foldl
    (fun best mapping =>
      let spatial := spatialOf bt mapping
      LABEL_PERMS.foldl
        (fun best pp =>
          LABEL_PERMS.foldl
            (fun best sp =>
              let c1 := relabel pp sp false spatial
              let best := if boardLtB c1 best then c1 else best
              let c2 := relabel pp sp true spatial
              if boardLtB c2 best then c2 else best)
            best)
        best)
    bt

/-- One iteration layer of `get_permutation`'s loop
`for x in range(n, 0, -1)`: with `m + 1` iterations left the running
divisor `fact` equals `m!`, the next emitted tile is `pool.pop(index // fact)`
and the index becomes `index % fact`. -/
def unrankGo : Nat → List Tile → Nat → List Tile
  | 0, _, _ => []
  | m + 1, pool, index =>
    let fact := Nat.factorial m
    let k := index / fact
    pool.getD k (0, 0) :: unrankGo m (pool.eraseIdx k) (index % fact)

/-- The `get_permutation` function of utils.py: the `index`-th lexicographic
permutation of `pool`, or `none` when the index is out of range. -/
def get_permutation (pool : List Tile) (index : Nat) : Option (List Tile) :=
  if Nat.factorial pool.length ≤ index then none
  else some (unrankGo pool.length pool index)

/-- The loop of `board_to_perm_index`: Python's `available.index(tile)`
is `List.indexOf`, `available.pop(k)` is `List.eraseIdx`, and with `i`
tiles already consumed `factorial(n - 1 - i)` equals
`factorial(available.length - 1)`. -/
def rankGo : List Tile → List Tile → Nat
  | _, [] => 0
  | available, t :: rest =>
    let k := available.indexOf t
    k * Nat.factorial (available.length - 1) + rankGo (available.eraseIdx k) rest

/-- The `board_to_perm_index` function of utils.py: the lexicographic rank
of the board among permutations of the sorted 16-tile pool. -/
def board_to_perm_index (board : List Tile) : Nat :=
  rankGo sortedPool board

/-! Embedding of the solve orchestrator of solver.py.  The C fast path
(`solver_core.so`) is absent from the sources, so `solve_board` is modelled
as its Python fallback `_solve_board_python` (the debug path differs only
in printing). -/

/-- Running state of the phase-1 root loop of `_solve_board_python`. -/
structure RootOut where
  bestScore : Int
  bestMove : Int
  bestOut : Nat
  bestDepth : Nat
  cache : Option Cache

/-- The phase-1 root search over P1's opening moves: keep the strictly best
score, raise alpha, stop on `beta <= alpha`. -/
def rootLoop (board : Board) (moves : List Nat) (alpha beta : Int)
    (acc : RootOut) : RootOut :=
  match moves with
  | [] => acc
  | move :: rest =>
    let r := minimax board (1 <<< move) 0 move false alpha beta 1 acc.cache
    let acc' : RootOut :=
      if r.res.1 > acc.bestScore then
        ⟨r.res.1, (move : Int), r.res.2.1, r.res.2.2, r.cache⟩
      else
        ⟨acc.bestScore, acc.bestMove, acc.bestOut, acc.bestDepth, r.cache⟩
    let alpha' := if r.res.1 > alpha then r.res.1 else alpha
    if beta ≤ alpha' then acc'
    else rootLoop board rest alpha' beta acc'

/-- Running state of the inner reply scan of `_analyze_p2_responses`. -/
structure P2Acc where
  bestMove : Int
  bestScore : Int
  bestOut : Nat
  cache : Option Cache

/-- One iteration of `_analyze_p2_responses`: scan cells 0..15, and for each
legal P2 reply to the given opening call minimax with a fresh full window at
depth 2, keeping the strictly smallest score. -/
def analyzeOne (board : Board) (p1Move : Nat) (cache : Option Cache) :
    P2Response × Option Cache :=
  let p1Mask := 1 <<< p1Move
  let lastTile := board.getD p1Move (0, 0)
  let acc := (List.range 16).foldl
    (fun (a : P2Acc) i =>
      if p1Mask &&& (1 <<< i) == 0 &&
          (let curr := board.getD i (0, 0)
           curr.1 == lastTile.1 || curr.2 == lastTile.2) then
        let r := minimax board p1Mask (1 <<< i) i true NEG_INF_SENT INF_SENT 2
          a.cache
        if r.res.1 < a.bestScore then ⟨(i : Int), r.res.1, r.res.2.1, r.cache⟩
        else ⟨a.bestMove, a.bestScore, a.bestOut, r.cache⟩
      else a)
    ⟨-1, INF_SENT, OUT_DRAW, cache⟩
  (⟨p1Move, acc.bestMove, acc.bestScore == P1_WINS,
    OUTCOME_TABLE.getD acc.bestOut Outcome.DRAW⟩, acc.cache)

/-- The outer loop of `_analyze_p2_responses`, appending one `P2Response`
per opening cell and threading the shared transposition table. -/
def analyzeP2Go (board : Board) (openings : List Nat) (cache : Option Cache) :
    List P2Response × Option Cache :=
  match openings with
  | [] => ([], cache)
  | m :: rest =>
    let first := analyzeOne board m cache
    let others := analyzeP2Go board rest first.2
    (first.1 :: others.1, others.2)

/-- The `_analyze_p2_responses` function of solver.py. -/
def _analyze_p2_responses (board : Board) (cache : Option Cache) :
    List P2Response × Option Cache :=
  analyzeP2Go board OPENING_INDICES cache

/-- The `_solve_board_python` function of solver.py: phase-1 root search,
then (unless `skip_p2`) the P2 reply analysis reusing the phase-1 table. -/
def _solve_board_python (board : Board) (cache : Option Cache)
    (skip_p2 : Bool) : SolveResult :=
  let ro := rootLoop board OPENING_INDICES NEG_INF_SENT INF_SENT
    ⟨NEG_INF_SENT, -1, OUT_DRAW, 16, cache⟩
  let is_win := ro.bestScore == P1_WINS
  let isDraw := ro.bestScore == DRAW_SCORE
  let best_outcome := OUTCOME_TABLE.getD ro.bestOut Outcome.DRAW
  if skip_p2 then
    { is_p1_win := some is_win, is_draw := isDraw, best_move := ro.bestMove,
      outcome := best_outcome, game_depth := ro.bestDepth,
      best_move_position := classify_position ro.bestMove,
      p1_wins_count := 0, p2_wins_count := 0, draws_count := 0,
      p2_responses := [] }
  else
    let pr := _analyze_p2_responses board ro.cache
    let p1c : Int := ((pr.1.filter fun r => r.is_p1_win).length : Int)
    let dc : Int :=
      ((pr.1.filter fun r => decide (r.outcome = Outcome.DRAW)).length : Int)
    let p2c : Int := (pr.1.length : Int) - p1c - dc
    { is_p1_win := some is_win, is_draw := isDraw, best_move := ro.bestMove,
      outcome := best_outcome, game_depth := ro.bestDepth,
      best_move_position := classify_position ro.bestMove,
      p1_wins_count := p1c, p2_wins_count := p2c, draws_count := dc,
      p2_responses := pr.1 }

/-- The `solve_board` entry point of solver.py with `debug=False` and the C
shared library absent (it is not part of the sources): first the canonical
check, then the Python solve with a fresh transposition table. -/
def solve_board (board : Board) (skip_canonical : Bool) (skip_p2 : Bool) :
    SolveResult :=
  if !skip_canonical && !is_canonical board then SolveResult.duplicate
  else _solve_board_python board (some []) skip_p2

/-! Auxiliary definitions used by the verification: the flattened candidate
list of the canonicalizer, and the specification's spatial-symmetry table
for comparison with the source's `TRANSFORM_MAPS`. -/

/-- One canonicalizer update: keep the candidate when it is strictly
lexicographically smaller than the current best (`if c < best: best = c`). -/
def updMin (best c : Board) : Board :=
  if boardLtB c best then c else best

/-- The candidate boards inspected by `canonicalize_board`, flattened in
loop order: spatial transform, plant relabeling, poem relabeling, and the
two swap options. -/
def candidatesOf (board : Board) : List Board :=
  TRANSFORM_MAPS.flatMap fun mapping =>
    LABEL_PERMS.flatMap fun pp =>
      LABEL_PERMS.flatMap fun sp =>
        [relabel pp sp false (spatialOf board mapping),
         relabel pp sp true (spatialOf board mapping)]

/-- The anti-diagonal transpose of the 4x4 grid, `cell (r, c) <- cell
(3-c, 3-r)`: the eighth spatial symmetry named by the specification but
absent from the source's `TRANSFORM_MAPS`. -/
def antiTransposeMap : List Nat :=
  [15, 11, 7, 3, 14, 10, 6, 2, 13, 9, 5, 1, 12, 8, 4, 0]

/-- The eight spatial symmetries as the specification lists them (identity,
rotations by 90/180/270, horizontal flip, vertical flip, main-diagonal
transpose, anti-diagonal transpose), written as the same kind of index
mappings as `TRANSFORM_MAPS`. -/
def specSpatialMaps : List (List Nat) :=
  [[0, 1, 2, 3, 4, 5, 6, 7, 8, 9, 10, 11, 12, 13, 14, 15],
   [12, 8, 4, 0, 13, 9, 5, 1, 14, 10, 6, 2, 15, 11, 7, 3],
   [15, 14, 13, 12, 11, 10, 9, 8, 7, 6, 5, 4, 3, 2, 1, 0],
   [3, 7, 11, 15, 2, 6, 10, 14, 1, 5, 9, 13, 0, 4, 8, 12],
   [12, 13, 14, 15, 8, 9, 10, 11, 4, 5, 6, 7, 0, 1, 2, 3],
   [3, 2, 1, 0, 7, 6, 5, 4, 11, 10, 9, 8, 15, 14, 13, 12],
   [0, 4, 8, 12, 1, 5, 9, 13, 2, 6, 10, 14, 3, 7, 11, 15],
   antiTransposeMap]

/-- A concrete permutation board whose full-group lexicographic minimum is
reached only through the anti-diagonal transpose. -/
def exampleBoardC4 : Board :=
  [(1, 0), (0, 3), (3, 3), (1, 1), (0, 0), (2, 1), (2, 0), (0, 2),
   (3, 2), (3, 1), (1, 3), (1, 2), (2, 3), (3, 0), (0, 1), (2, 2)]

/-- The spec-group image of `exampleBoardC4` under the anti-diagonal
transpose (with identity relabelings and no swap). -/
def exampleBoardC4anti : Board := spatialOf exampleBoardC4 antiTransposeMap

/-- The relabeling parameters that turn `exampleBoardC4anti` into the true
orbit minimum of `exampleBoardC4`. -/
def exampleBoardC4best : Board :=
  relabel [3, 1, 0, 2] [2, 1, 0, 3] true exampleBoardC4anti

/-- The sorted pool with poem labels 0 and 1 exchanged: minimal among its
spatial images, yet label relabeling reduces it to the sorted pool. -/
def exampleBoardC7 : Board :=
  [(0, 1), (0, 0), (0, 2), (0, 3), (1, 1), (1, 0), (1, 2), (1, 3),
   (2, 1), (2, 0), (2, 2), (2, 3), (3, 1), (3, 0), (3, 2), (3, 3)]

/-- The sorted pool reversed: its 180-degree rotation is the sorted pool,
so it is not canonical. -/
def reversedPool : Board :=
  [(3, 3), (3, 2), (3, 1), (3, 0), (2, 3), (2, 2), (2, 1), (2, 0),
   (1, 3), (1, 2), (1, 1), (1, 0), (0, 3), (0, 2), (0, 1), (0, 0)]

/-! General lemmas about the lexicographic board order and the
running-minimum fold of the canonicalizer. -/

theorem tileLtB_irrefl (a : Tile) : tileLtB a a = false := by
  simp [tileLtB]

theorem tileLtB_trans {a b c : Tile} (h1 : tileLtB a b = true)
    (h2 : tileLtB b c = true) : tileLtB a c = true := by
  rcases a with ⟨a1, a2⟩; rcases b with ⟨b1, b2⟩; rcases c with ⟨c1, c2⟩
  simp only [tileLtB, Bool.or_eq_true, Bool.and_eq_true, decide_eq_true_eq,
    beq_iff_eq] at h1 h2 ⊢
  omega

theorem boardLtB_irrefl (l : List Tile) : boardLtB l l = false := by
  induction l with
  | nil => rfl
  | cons a t ih => simp [boardLtB, ih]

theorem boardLtB_trans : ∀ {a b c : List Tile}, boardLtB a b = true →
    boardLtB b c = true → boardLtB a c = true := by
  intro a
  induction a with
  | nil =>
    intro b c h1 h2
    cases b with
    | nil => exact h2
    | cons y ys =>
      cases c with
      | nil => simp [boardLtB] at h2
      | cons z zs => rfl
  | cons x xs ih =>
    intro b c h1 h2
    cases b with
    | nil => simp [boardLtB] at h1
    | cons y ys =>
      cases c with
      | nil => simp [boardLtB] at h2
      | cons z zs =>
        by_cases hxy : x = y
        · subst hxy
          simp only [boardLtB, if_pos rfl] at h1
          by_cases hyz : x = z
          · subst hyz
            simp only [boardLtB, if_pos rfl] at h2 ⊢
            exact ih h1 h2
          · simp only [boardLtB, if_neg hyz] at h2 ⊢
            exact h2
        · simp only [boardLtB, if_neg hxy] at h1
          by_cases hyz : y = z
          · subst hyz
            simp only [boardLtB, if_neg hxy]
            exact h1
          · simp only [boardLtB, if_neg hyz] at h2
            have hxz : x ≠ z := by
              intro he
              subst he
              have := tileLtB_trans h1 h2
              simp [tileLtB_irrefl] at this
            simp only [boardLtB, if_neg hxz]
            exact tileLtB_trans h1 h2

theorem boardLtB_asymm {a b : List Tile} (h : boardLtB a b = true) :
    boardLtB b a = false := by
  cases hba : boardLtB b a with
  | false => rfl
  | true =>
    have := boardLtB_trans h hba
    rw [boardLtB_irrefl] at this
    exact absurd this Bool.false_ne_true

theorem updMin_not_lt_left (b c : Board) : boardLtB b (updMin b c) = false := by
  unfold updMin
  by_cases h : boardLtB c b = true
  · rw [if_pos h]
    exact boardLtB_asymm h
  · rw [if_neg h]
    exact boardLtB_irrefl b

theorem updMin_not_lt_right (b c : Board) : boardLtB c (updMin b c) = false := by
  unfold updMin
  by_cases h : boardLtB c b = true
  · rw [if_pos h]
    exact boardLtB_irrefl c
  · rw [if_neg h]
    exact Bool.of_not_eq_true h

theorem updMin_preserve {x b : Board} (c : Board)
    (h : boardLtB x b = false) : boardLtB x (updMin b c) = false := by
  unfold updMin
  by_cases hcb : boardLtB c b = true
  · rw [if_pos hcb]
    cases hxc : boardLtB x c with
    | false => rfl
    | true =>
      have := boardLtB_trans hxc hcb
      rw [h] at this
      exact absurd this Bool.false_ne_true
  · rw [if_neg hcb]
    exact h

theorem foldl_updMin_preserve : ∀ (l : List Board) {b x : Board},
    boardLtB x b = false → boardLtB x (l.foldl updMin b) = false := by
  intro l
  induction l with
  | nil => intro b x h; exact h
  | cons c t ih =>
    intro b x h
    simp only [List.foldl_cons]
    exact ih (updMin_preserve c h)

theorem foldl_updMin_mem : ∀ (l : List Board) (b : Board),
    l.foldl updMin b = b ∨ l.foldl updMin b ∈ l := by
  intro l
  induction l with
  | nil => intro b; exact Or.inl rfl
  | cons c t ih =>
    intro b
    simp only [List.foldl_cons]
    rcases ih (updMin b c) with h | h
    · rw [h]
      unfold updMin
      by_cases hcb : boardLtB c b = true
      · rw [if_pos hcb]; exact Or.inr (List.mem_cons_self c t)
      · rw [if_neg hcb]; exact Or.inl rfl
    · exact Or.inr (List.mem_cons_of_mem c h)

theorem foldl_updMin_not_lt : ∀ (l : List Board) (b x : Board),
    x = b ∨ x ∈ l → boardLtB x (l.foldl updMin b) = false := by
  intro l
  induction l with
  | nil =>
    intro b x h
    rcases h with h | h
    · subst h; exact boardLtB_irrefl x
    · simp at h
  | cons c t ih =>
    intro b x h
    simp only [List.foldl_cons]
    rcases h with h | h
    · subst h
      exact foldl_updMin_preserve t (updMin_not_lt_left x c)
    · rcases List.mem_cons.1 h with h | h
      · subst h
        exact foldl_updMin_preserve t (updMin_not_lt_right b x)
      · exact ih (updMin b c) x (Or.inr h)

theorem foldl_flatMap_fold {α β γ : Type} (f : α → List β) (g : γ → β → γ) :
    ∀ (l : List α) (b : γ),
    ((l.flatMap f).foldl g b) = l.foldl (fun acc a => (f a).foldl g acc) b := by
  intro l
  induction l with
  | nil => intro b; rfl
  | cons a t ih =>
    intro b
    simp only [List.flatMap_cons, List.foldl_append, List.foldl_cons, ih]

theorem canonicalize_board_eq_foldl (board : Board) :
    canonicalize_board board = (candidatesOf board).foldl updMin board := by
  unfold canonicalize_board candidatesOf
  rw [foldl_flatMap_fold]
  simp only [foldl_flatMap_fold]
  rfl

theorem mem_candidatesOf {x B : Board} :
    x ∈ candidatesOf B ↔
      ∃ m ∈ TRANSFORM_MAPS, ∃ pp ∈ LABEL_PERMS, ∃ sp ∈ LABEL_PERMS,
        ∃ w : Bool, x = relabel pp sp w (spatialOf B m) := by
  simp only [candidatesOf, List.mem_flatMap, List.mem_cons,
    List.not_mem_nil, or_false, Bool.exists_bool]

theorem map_getD_eq_spatialOf (B : Board) (m : List Nat) (hm : m.length = 16) :
    (m.map fun i => B.getD i (0, 0)) = spatialOf B m := by
  apply List.ext_getElem
  · simp [spatialOf, hm]
  · intro n h1 h2
    simp only [List.length_map, hm] at h1
    simp only [List.getElem_map, List.getElem_range, spatialOf]
    congr 1
    exact (List.getD_eq_getElem m 0 (by omega)).symm

theorem relabel_id (X : Board) (hX : ∀ t ∈ X, t.1 < 4 ∧ t.2 < 4) :
    relabel [0, 1, 2, 3] [0, 1, 2, 3] false X = X := by
  unfold relabel
  have : ∀ t ∈ X, (if false then
      (([0,1,2,3] : List Nat).getD t.2 0, ([0,1,2,3] : List Nat).getD t.1 0)
    else (([0,1,2,3] : List Nat).getD t.1 0, ([0,1,2,3] : List Nat).getD t.2 0)) = id t := by
    intro t ht
    rcases hX t ht with ⟨h1, h2⟩
    rcases t with ⟨a, b⟩
    simp only [if_neg Bool.false_ne_true, id_eq]
    simp only at h1 h2
    congr 1
    · interval_cases a <;> rfl
    · interval_cases b <;> rfl
  rw [List.map_congr_left this, List.map_id]

theorem spatialOf_tiles {B : Board} {m : List Nat} :
    ∀ t ∈ spatialOf B m, t = (0, 0) ∨ t ∈ B := by
  intro t ht
  simp only [spatialOf, List.mem_map] at ht
  rcases ht with ⟨i, _, hi⟩
  by_cases h : m.getD i 0 < B.length
  · right
    rw [← hi, List.getD_eq_getElem B (0, 0) h]
    exact List.getElem_mem h
  · left
    rw [← hi, List.getD_eq_default B (0, 0) (by omega)]

theorem perm_length_16 {B : Board} (h : B.Perm sortedPool) : B.length = 16 := by
  simpa using h.length_eq

theorem perm_tiles_lt_4 {B : Board} (h : B.Perm sortedPool) :
    ∀ t ∈ B, t.1 < 4 ∧ t.2 < 4 := by
  intro t ht
  have hmem : t ∈ sortedPool := (h.mem_iff).1 ht
  exact (by decide : ∀ t ∈ sortedPool, t.1 < 4 ∧ t.2 < 4) t hmem

theorem exampleBoardC4best_lt_canon :
    boardLtB exampleBoardC4best (canonicalize_board exampleBoardC4) = true := by
  have hmem := foldl_updMin_mem (candidatesOf exampleBoardC4) exampleBoardC4
  rw [← canonicalize_board_eq_foldl] at hmem
  rcases hmem with h | h
  · rw [h]; decide
  · rcases mem_candidatesOf.1 h with ⟨m, hm, pp, hpp, sp, hsp, w, hx⟩
    rw [hx]
    exact (by decide :
      ∀ m ∈ TRANSFORM_MAPS, ∀ pp ∈ LABEL_PERMS, ∀ sp ∈ LABEL_PERMS, ∀ w : Bool,
        boardLtB exampleBoardC4best
          (relabel pp sp w (spatialOf exampleBoardC4 m)) = true)
      m hm pp hpp sp hsp w

/-- Claim C4 (code bug): `canonicalize_board` is NOT the lexicographic
minimum over the 9,216 spec-group images.  On the concrete permutation
board `exampleBoardC4`, the image under the anti-diagonal transpose (a
spatial symmetry named by the specification but missing from the source's
`TRANSFORM_MAPS`, whose `d2_ref` entry duplicates the main transpose)
composed with the relabelings `pi_A = [3,1,0,2]`, `pi_B = [2,1,0,3]` and
the attribute swap is strictly lexicographically smaller than the value
`canonicalize_board` returns. -/
theorem C4_canonicalize_misses_spec_image :
    antiTransposeMap ∈ specSpatialMaps
    ∧ ([3, 1, 0, 2] : List Nat) ∈ LABEL_PERMS
    ∧ ([2, 1, 0, 3] : List Nat) ∈ LABEL_PERMS
    ∧ exampleBoardC4.Perm sortedPool
    ∧ exampleBoardC4best
        = relabel [3, 1, 0, 2] [2, 1, 0, 3] true
            (spatialOf exampleBoardC4 antiTransposeMap)
    ∧ boardLtB exampleBoardC4best (canonicalize_board exampleBoardC4) = true :=
  ⟨by decide, by decide, by decide, by decide, rfl, exampleBoardC4best_lt_canon⟩

/-- Claim C5 (code bug): `canonicalize_board` is NOT invariant under the
9,216-element symmetry group of the specification.  Applying the group
element g = (anti-diagonal transpose, identity relabelings, no swap) to the
concrete board `exampleBoardC4` changes the canonicalizer's output, because
the anti-diagonal transpose is missing from the source's transform table. -/
theorem C5_canonicalize_not_invariant :
    antiTransposeMap ∈ specSpatialMaps
    ∧ exampleBoardC4anti = spatialOf exampleBoardC4 antiTransposeMap
    ∧ canonicalize_board exampleBoardC4anti ≠ canonicalize_board exampleBoardC4 := by
  refine ⟨by decide, rfl, ?_⟩
  intro heq
  have hYmem : exampleBoardC4best ∈ candidatesOf exampleBoardC4anti := by
    apply mem_candidatesOf.2
    exact ⟨List.range 16, by decide, [3, 1, 0, 2], by decide,
      [2, 1, 0, 3], by decide, true, by decide⟩
  have hnot : boardLtB exampleBoardC4best
      (canonicalize_board exampleBoardC4anti) = false := by
    rw [canonicalize_board_eq_foldl]
    exact foldl_updMin_not_lt _ _ _ (Or.inr hYmem)
  rw [heq, exampleBoardC4best_lt_canon] at hnot
  exact Bool.noConfusion hnot

/-- Claim C7 (confirmed): the 8-symmetry `is_canonical` check is necessary
but not sufficient for full canonicality.  Part one: any permutation board
that is the lexicographic minimum of its full 9,216-image spec orbit (no
image under a spec spatial symmetry, relabelings and optional swap is
smaller) passes `is_canonical`.  Part two: the concrete board
`exampleBoardC7` passes `is_canonical` yet a spec-orbit image of it (poem
relabeling [1,0,2,3], identity elsewhere) is strictly smaller, so it is not
the minimum of its full orbit. -/
theorem C7_is_canonical_necessary_not_sufficient :
    (∀ B : Board, B.Perm sortedPool →
      (∀ m ∈ specSpatialMaps, ∀ pp ∈ LABEL_PERMS, ∀ sp ∈ LABEL_PERMS,
        ∀ w : Bool, boardLtB (relabel pp sp w (spatialOf B m)) B = false) →
      is_canonical B = true)
    ∧ (is_canonical exampleBoardC7 = true
       ∧ List.range 16 ∈ specSpatialMaps
       ∧ ([0, 1, 2, 3] : List Nat) ∈ LABEL_PERMS
       ∧ ([1, 0, 2, 3] : List Nat) ∈ LABEL_PERMS
       ∧ boardLtB (relabel [0, 1, 2, 3] [1, 0, 2, 3] false
           (spatialOf exampleBoardC7 (List.range 16))) exampleBoardC7 = true) := by
  constructor
  · intro B hperm hball
    have htiles := perm_tiles_lt_4 hperm
    simp only [is_canonical, List.all_eq_true]
    intro m hm
    have hm16 : m.length = 16 :=
      (by decide : ∀ x ∈ TRANSFORM_MAPS, x.length = 16) m hm
    have hmspec : m ∈ specSpatialMaps :=
      (by decide : ∀ x ∈ TRANSFORM_MAPS, x ∈ specSpatialMaps) m hm
    have h := hball m hmspec [0, 1, 2, 3] (by decide) [0, 1, 2, 3] (by decide) false
    have hid : relabel [0, 1, 2, 3] [0, 1, 2, 3] false (spatialOf B m)
        = spatialOf B m := by
      apply relabel_id
      intro t ht
      rcases spatialOf_tiles t ht with h0 | h0
      · subst h0; exact ⟨by norm_num, by norm_num⟩
      · exact htiles t h0
    rw [hid] at h
    rw [map_getD_eq_spatialOf B m hm16]
    simp [h]
  · exact ⟨by decide, by decide, by decide, by decide, by decide⟩

/-- Witness for C7: the sorted pool is the lexicographic minimum of its
full spec orbit, and the theorem then reports it canonical. -/
theorem C7_is_canonical_witness : is_canonical sortedPool = true :=
  C7_is_canonical_necessary_not_sufficient.1 sortedPool (List.Perm.refl _)
    (by decide)

theorem boardLtB_map_cons (f : Nat → Tile) (j : Nat) (js : List Nat) (y : Tile)
    (v : List Tile) (h : f j ≠ y) :
    boardLtB ((j :: js).map f) (y :: v) = tileLtB (f j) y := by
  simp [List.map_cons, boardLtB, h]

/-- Claim C10 (confirmed): on a permutation board that is not the
lexicographic minimum among its eight spatial-symmetry images (as the
specification lists them, anti-diagonal transpose included), `solve_board`
with the default `skip_canonical = False` performs no search and returns
the `SolveResult.duplicate` sentinel: `is_p1_win = None`, `best_move = -1`,
`outcome = Duplicate` (not one of the seven spec outcome classes),
`game_depth = 0`, zero counts, and no `p2_responses`.  The source's
transform table omits the anti-transpose, but on distinct-tile boards an
anti-transpose reduction forces a 180-degree-rotation reduction (both
images start with the tile of cell 15), so the check still fires. -/
theorem C10_duplicate_sentinel : ∀ (B : Board) (sp : Bool), B.Perm sortedPool →
    (∃ m ∈ specSpatialMaps, boardLtB (m.map fun i => B.getD i (0, 0)) B = true) →
    solve_board B false sp = SolveResult.duplicate
    ∧ (solve_board B false sp).is_p1_win = none
    ∧ (solve_board B false sp).best_move = -1
    ∧ (solve_board B false sp).outcome = Outcome.DUPLICATE
    ∧ (solve_board B false sp).game_depth = 0
    ∧ (solve_board B false sp).p1_wins_count = 0
    ∧ (solve_board B false sp).p2_wins_count = 0
    ∧ (solve_board B false sp).draws_count = 0
    ∧ (solve_board B false sp).p2_responses = []
    ∧ Outcome.DUPLICATE ∉ [Outcome.ROW, Outcome.COLUMN, Outcome.MAIN_DIAGONAL,
        Outcome.ANTI_DIAGONAL, Outcome.SQUARE, Outcome.BLOCKADE, Outcome.DRAW] := by
  intro B sp hperm hex
  have hnc : is_canonical B = false := by
    rcases hex with ⟨m, hm, hlt⟩
    simp only [is_canonical, List.all_eq_false]
    rcases (by decide :
        ∀ x ∈ specSpatialMaps, x ∈ TRANSFORM_MAPS ∨ x = antiTransposeMap) m hm
      with h | h
    · exact ⟨m, h, by rw [hlt]; simp⟩
    · subst h
      have hlen := perm_length_16 hperm
      rcases B with _ | ⟨b0, rest⟩
      · simp at hlen
      · have hnd : (b0 :: rest).Nodup := (hperm.nodup_iff).2 (by decide)
        have h15 : (15 : Nat) < (b0 :: rest).length := by rw [hlen]; omega
        have hne : (b0 :: rest).getD 15 (0, 0) ≠ b0 := by
          rw [List.getD_eq_getElem _ _ h15]
          intro he
          have hb0 : (b0 :: rest)[(0 : Nat)] = b0 := rfl
          rw [← hb0] at he
          have := (hnd.getElem_inj_iff).1 he
          exact absurd this (by omega)
        rw [show antiTransposeMap
            = 15 :: [11, 7, 3, 14, 10, 6, 2, 13, 9, 5, 1, 12, 8, 4, 0] from rfl,
          boardLtB_map_cons _ _ _ _ _ hne] at hlt
        refine ⟨[15, 14, 13, 12, 11, 10, 9, 8, 7, 6, 5, 4, 3, 2, 1, 0],
          by decide, ?_⟩
        rw [show ([15, 14, 13, 12, 11, 10, 9, 8, 7, 6, 5, 4, 3, 2, 1, 0] :
              List Nat)
            = 15 :: [14, 13, 12, 11, 10, 9, 8, 7, 6, 5, 4, 3, 2, 1, 0] from rfl,
          boardLtB_map_cons _ _ _ _ _ hne, hlt]
        simp
  have hsolve : solve_board B false sp = SolveResult.duplicate := by
    simp [solve_board, hnc]
  refine ⟨hsolve, ?_, ?_, ?_, ?_, ?_, ?_, ?_, ?_, by decide⟩ <;> rw [hsolve] <;> rfl

/-- Witness for C10: the reversed pool reduces under the 180-degree
rotation (a spec spatial symmetry), and solving it returns the sentinel. -/
theorem C10_duplicate_sentinel_witness :
    solve_board reversedPool false true = SolveResult.duplicate :=
  (C10_duplicate_sentinel reversedPool true (by decide)
    ⟨[15, 14, 13, 12, 11, 10, 9, 8, 7, 6, 5, 4, 3, 2, 1, 0], by decide,
      by decide⟩).1

/-- Claim C1 (code bug): minimax stores cutoff-truncated triples in the
transposition table.  In the concrete call below (sorted board, P1 owns
cell 7, P2 owns cells 0-2, window [-1, 2], P2 to move), P2's first reply
completes row 0, beta drops to -1 <= alpha, the child loop breaks with
moves 4, 5, 6, 11, 15 unexplored, and the node still writes its triple to
the table: the `cuts` instrumentation records the store and the final table
contains the cut node's entry. -/
theorem C1_cut_node_result_is_cached :
    (minimax sortedPool 128 7 7 false (-1) 2 4 (some [])).cuts
      = [(128, 7, 7, false)]
    ∧ (minimax sortedPool 128 7 7 false (-1) 2 4 (some [])).cache
      = some [((128, 7, 7, false), (-1, OUT_ROW, 5)),
              ((128, 15, 3, true), (-1, OUT_ROW, 5))]
    ∧ (minimax sortedPool 128 7 7 false (-1) 2 4 (some [])).res
      = (-1, OUT_ROW, 5) :=
  ⟨rfl, rfl, rfl⟩

/-- Claim C3 counterexample: the winning-pattern table does not have 26
entries. -/
theorem C3_not_26_masks : WIN_MASKS.length ≠ 26 := by decide

/-- Claim C3 (corrected): the winning-pattern table contains exactly 19
masks — the 4 rows and 4 columns (interleaved row, column for each index),
the 2 diagonals, and the 9 2x2 squares, each tagged with its outcome
index. -/
theorem C3_nineteen_masks :
    WIN_MASKS.length = 19
    ∧ WIN_MASKS =
      [(15, OUT_ROW), (4369, OUT_COL), (240, OUT_ROW), (8738, OUT_COL),
       (3840, OUT_ROW), (17476, OUT_COL), (61440, OUT_ROW), (34952, OUT_COL),
       (33825, OUT_MAIN_DIAG), (4680, OUT_ANTI_DIAG),
       (51, OUT_SQUARE), (102, OUT_SQUARE), (204, OUT_SQUARE),
       (816, OUT_SQUARE), (1632, OUT_SQUARE), (3264, OUT_SQUARE),
       (13056, OUT_SQUARE), (26112, OUT_SQUARE), (52224, OUT_SQUARE)]
    ∧ (∀ i : Nat, i < 4 → (rowMaskOf i, OUT_ROW) ∈ WIN_MASKS)
    ∧ (∀ i : Nat, i < 4 → (colMaskOf i, OUT_COL) ∈ WIN_MASKS)
    ∧ (diag1Mask, OUT_MAIN_DIAG) ∈ WIN_MASKS
    ∧ (diag2Mask, OUT_ANTI_DIAG) ∈ WIN_MASKS
    ∧ (∀ r : Nat, r < 3 → ∀ c : Nat, c < 3 →
        (squareMaskOf r c, OUT_SQUARE) ∈ WIN_MASKS) := by
  refine ⟨by decide, by decide, ?_, ?_, by decide, by decide, ?_⟩ <;> decide

/-- Claim C2 counterexample: a previous-player mask that contains both a
complete row (row 3) and a complete column (column 0) is reported as
Column, not Row, because the table interleaves rows and columns. -/
theorem C2_row_before_column_counterexample :
    (61713 &&& rowMaskOf 3) = rowMaskOf 3
    ∧ (61713 &&& colMaskOf 0) = colMaskOf 0
    ∧ (minimax sortedPool 61713 0 15 false (-2) 2 13 none).res
      = (1, OUT_COL, 13)
    ∧ OUT_COL ≠ OUT_ROW :=
  ⟨by decide, by decide, rfl, by decide⟩

/-- Claim C2 (corrected): when the previous player's mask matches a winning
pattern, minimax (on a transposition miss) reports the first match in the
table's actual interleaved order (row 0, column 0, row 1, column 1, row 2,
column 2, row 3, column 3, the diagonals, then the squares); in particular,
for a mask consisting of exactly row i and column j, the reported outcome
is Row precisely when i <= j, and Column otherwise. -/
theorem C2_first_match_win_order :
    (∀ (board : Board) (p1 p2 last : Nat) (turn : Bool) (alpha beta : Int)
       (d : Nat) (c : Option Cache) (wo : Nat × Nat),
       cacheLookup c (p1, p2, last, turn) = none →
       WIN_MASKS.find? (fun e => (if turn then p2 else p1) &&& e.1 == e.1)
         = some wo →
       (minimax board p1 p2 last turn alpha beta d c).res
         = ((if turn then P1_LOSES else P1_WINS), wo.2, d))
    ∧ (∀ i : Nat, i < 4 → ∀ j : Nat, j < 4 →
       check_win_outcome (rowMaskOf i ||| colMaskOf j)
         = if i ≤ j then (OUT_ROW : Int) else (OUT_COL : Int)) := by
  constructor
  · intro board p1 p2 last turn alpha beta d c wo hmiss hfind
    show (minimaxF (16 + 1) board p1 p2 last turn alpha beta d c).res = _
    simp only [minimaxF, minimaxStep, hmiss, hfind]
  · decide

/-- Witness for C2: a mask that is exactly row 0 is reported as a Row win
with P1's score, and the row-0/column-0 union reports Row. -/
theorem C2_first_match_win_order_witness :
    (minimax sortedPool 15 0 3 false (-2) 2 4 none).res = (1, OUT_ROW, 4)
    ∧ check_win_outcome (rowMaskOf 0 ||| colMaskOf 0) = OUT_ROW := by
  constructor
  · exact C2_first_match_win_order.1 sortedPool 15 0 3 false (-2) 2 4 none
      (15, OUT_ROW) rfl (by decide)
  · exact C2_first_match_win_order.2 0 (by decide) 0 (by decide)

/-- Claim C8 (confirmed): on a transposition miss where the previous
player's mask matches no winning pattern, the depth is below 16, and no
empty cell is attribute-compatible with the last-played tile (the inlined
legal-move list is empty), minimax returns the blockade triple: score -1
when it is P1's turn and +1 otherwise, outcome Blockade, at the current
ply. -/
theorem C8_blockade_return :
    ∀ (board : Board) (p1 p2 last : Nat) (turn : Bool) (alpha beta : Int)
      (d : Nat) (c : Option Cache),
      cacheLookup c (p1, p2, last, turn) = none →
      WIN_MASKS.find? (fun e => (if turn then p2 else p1) &&& e.1 == e.1)
        = none →
      d < 16 →
      movesFrom board (p1 ||| p2) last = [] →
      (minimax board p1 p2 last turn alpha beta d c).res
        = ((if turn then P1_LOSES else P1_WINS), OUT_BLOCKADE, d) := by
  intro board p1 p2 last turn alpha beta d c hmiss hwin hd hmoves
  show (minimaxF (16 + 1) board p1 p2 last turn alpha beta d c).res = _
  have hd16 : (d == 16) = false := by
    simp only [beq_eq_false_iff_ne, ne_eq]
    omega
  simp only [minimaxF, minimaxStep, hmiss, hwin, hmoves, hd16, Bool.false_eq_true,
    if_false, List.isEmpty_nil, if_true]

/-- Witness for C8: a concrete blockade — on the sorted board with cells
0-4, 8, 12 taken and cell 0 played last, no free cell shares an attribute
with tile (0,0), and the side to move (P1) loses by blockade at ply 7. -/
theorem C8_blockade_return_witness :
    (minimax sortedPool 4361 22 0 true (-2) 2 7 (some [])).res
      = (-1, OUT_BLOCKADE, 7) :=
  C8_blockade_return sortedPool 4361 22 0 true (-2) 2 7 (some [])
    rfl (by decide) (by omega) (by decide)

theorem analyzeP2Go_length :
    ∀ (openings : List Nat) (board : Board) (c : Option Cache),
    (analyzeP2Go board openings c).1.length = openings.length := by
  intro openings
  induction openings with
  | nil => intro board c; rfl
  | cons m rest ih =>
    intro board c
    simp only [analyzeP2Go, List.length_cons]
    rw [ih]

/-- Claim C9 (confirmed): whenever the P2 analysis runs (`skip_p2 = False`
and the canonical check either bypassed or passed), the Python solve path
returns exactly one `P2Response` per opening cell — twelve — and the three
outcome counters sum to twelve, since `p2_wins_count` is defined as the
list length minus the other two counters. -/
theorem C9_twelve_p2_responses :
    ∀ (board : Board) (sc : Bool),
      sc = true ∨ is_canonical board = true →
      (solve_board board sc false).p2_responses.length = 12
      ∧ (solve_board board sc false).p1_wins_count
          + (solve_board board sc false).p2_wins_count
          + (solve_board board sc false).draws_count = 12 := by
  intro board sc hsc
  have hpath : solve_board board sc false
      = _solve_board_python board (some []) false := by
    rcases hsc with h | h
    · subst h; simp [solve_board]
    · simp [solve_board, h]
  rw [hpath]
  simp only [_solve_board_python, Bool.false_eq_true, if_false]
  have hlen : (_analyze_p2_responses board
      (rootLoop board OPENING_INDICES NEG_INF_SENT INF_SENT
        ⟨NEG_INF_SENT, -1, OUT_DRAW, 16, some []⟩).cache).1.length = 12 := by
    rw [_analyze_p2_responses, analyzeP2Go_length]
    rfl
  constructor
  · exact hlen
  · have h12 : ((_analyze_p2_responses board
        (rootLoop board OPENING_INDICES NEG_INF_SENT INF_SENT
          ⟨NEG_INF_SENT, -1, OUT_DRAW, 16, some []⟩).cache).1.length : Int)
        = 12 := by rw [hlen]; rfl
    omega

/-- Witness for C9: with the canonical check bypassed, solving the sorted
pool yields twelve P2 responses. -/
theorem C9_twelve_p2_responses_witness :
    (solve_board sortedPool true false).p2_responses.length = 12 :=
  (C9_twelve_p2_responses sortedPool true (Or.inl rfl)).1

theorem tile_beq_inst (a b : Tile) :
    (a == b) = @BEq.beq Tile instBEqOfDecidableEq a b := by
  cases h : @BEq.beq Tile instBEqOfDecidableEq a b
  · have hne : a ≠ b := of_decide_eq_false h
    exact beq_eq_false_iff_ne.mpr hne
  · have heq : a = b := of_decide_eq_true h
    subst heq
    exact beq_self_eq_true a

theorem tile_indexOf_inst (t : Tile) (l : List Tile) :
    List.indexOf t l = @List.indexOf Tile instBEqOfDecidableEq t l := by
  induction l with
  | nil => rfl
  | cons a as ih =>
    simp only [List.indexOf_cons]
    rw [tile_beq_inst, ih]

theorem tile_erase_inst (l : List Tile) (t : Tile) :
    l.erase t = @List.erase Tile instBEqOfDecidableEq l t := by
  induction l with
  | nil => rfl
  | cons a as ih =>
    simp only [List.erase_cons]
    rw [tile_beq_inst, ih]

theorem rankGo_unrankGo (n : Nat) :
    ∀ pool : List Tile, pool.length = n → pool.Nodup →
    ∀ i : Nat, i < Nat.factorial n → rankGo pool (unrankGo n pool i) = i := by
  induction n with
  | zero =>
    intro pool hlen _ i hi
    have hi0 : i = 0 := by simpa [Nat.factorial] using hi
    have hp : pool = [] := List.length_eq_zero.mp hlen
    subst hi0; subst hp
    rfl
  | succ n ih =>
    intro pool hlen hnd i hi
    have hf : 0 < Nat.factorial n := Nat.factorial_pos n
    have hk : i / Nat.factorial n ≤ n := by
      rw [Nat.factorial_succ] at hi
      have := (Nat.div_lt_iff_lt_mul hf).mpr hi
      omega
    have hklen : i / Nat.factorial n < pool.length := by omega
    show rankGo pool (pool.getD (i / Nat.factorial n) (0, 0) ::
      unrankGo n (pool.eraseIdx (i / Nat.factorial n)) (i % Nat.factorial n)) = i
    have hgetD : pool.getD (i / Nat.factorial n) (0, 0)
        = pool[i / Nat.factorial n] := List.getD_eq_getElem _ _ hklen
    have hidx : List.indexOf pool[i / Nat.factorial n] pool = i / Nat.factorial n := by
      rw [tile_indexOf_inst]
      exact List.indexOf_getElem hnd _ _
    simp only [rankGo, hgetD, hidx]
    have hel : (pool.eraseIdx (i / Nat.factorial n)).length = n := by
      rw [List.length_eraseIdx, if_pos hklen]
      omega
    have hnd' : (pool.eraseIdx (i / Nat.factorial n)).Nodup := hnd.eraseIdx _
    have hrec := ih (pool.eraseIdx (i / Nat.factorial n)) hel hnd'
      (i % Nat.factorial n) (Nat.mod_lt _ hf)
    rw [show pool.length - 1 = n from by omega, hrec]
    exact Nat.div_add_mod' i (Nat.factorial n)

theorem unrankGo_rankGo :
    ∀ (B pool : List Tile), pool.Nodup → B.Perm pool →
    unrankGo pool.length pool (rankGo pool B) = B
    ∧ rankGo pool B < Nat.factorial pool.length := by
  intro B
  induction B with
  | nil =>
    intro pool hnd hperm
    have hp : pool = [] := (hperm.symm).eq_nil
    subst hp
    exact ⟨rfl, by decide⟩
  | cons t rest ih =>
    intro pool hnd hperm
    have ht : t ∈ pool := hperm.subset (List.mem_cons_self t rest)
    have hklen : List.indexOf t pool < pool.length := by
      rw [tile_indexOf_inst]
      exact List.indexOf_lt_length.mpr ht
    have herase : pool.eraseIdx (List.indexOf t pool) = pool.erase t :=
      List.eraseIdx_indexOf_eq_erase t pool
    have herase2 : pool.erase t = @List.erase Tile instBEqOfDecidableEq pool t :=
      tile_erase_inst pool t
    have hperm' : rest.Perm (pool.erase t) := by
      rw [herase2]
      have h1 : pool.Perm (t :: @List.erase Tile instBEqOfDecidableEq pool t) :=
        List.perm_cons_erase ht
      exact (List.perm_cons t).mp (hperm.trans h1)
    have hnd' : (pool.erase t).Nodup := hnd.erase t
    have hlen' : (pool.erase t).length = pool.length - 1 :=
      List.length_erase_of_mem ht
    obtain ⟨ih1, ih2⟩ := ih (pool.erase t) hnd' hperm'
    obtain ⟨m, hm⟩ : ∃ m, pool.length = m + 1 := ⟨pool.length - 1, by omega⟩
    have hr : rankGo (pool.erase t) rest < Nat.factorial m := by
      rw [hlen', hm] at ih2
      simpa using ih2
    have hrank : rankGo pool (t :: rest)
        = List.indexOf t pool * Nat.factorial m + rankGo (pool.erase t) rest := by
      simp only [rankGo, herase]
      rw [show pool.length - 1 = m from by omega]
    constructor
    · rw [hrank, hm]
      show pool.getD ((List.indexOf t pool * Nat.factorial m
          + rankGo (pool.erase t) rest) / Nat.factorial m) (0, 0) ::
        unrankGo m (pool.eraseIdx _) (_ % Nat.factorial m) = t :: rest
      have hf : 0 < Nat.factorial m := Nat.factorial_pos m
      have hdiv : (List.indexOf t pool * Nat.factorial m
          + rankGo (pool.erase t) rest) / Nat.factorial m = List.indexOf t pool := by
        rw [Nat.add_comm, Nat.mul_comm, Nat.add_mul_div_left _ _ hf,
          Nat.div_eq_of_lt hr]
        omega
      have hmod : (List.indexOf t pool * Nat.factorial m
          + rankGo (pool.erase t) rest) % Nat.factorial m
          = rankGo (pool.erase t) rest := by
        rw [Nat.add_comm, Nat.mul_comm, Nat.add_mul_mod_self_left,
          Nat.mod_eq_of_lt hr]
      rw [hdiv, hmod, herase]
      congr 1
      · rw [tile_indexOf_inst]
        rw [tile_indexOf_inst] at hklen
        rw [List.getD_eq_getElem _ _ hklen]
        exact List.getElem_indexOf hklen
      · have : (pool.erase t).length = m := by omega
        rw [← this]
        exact ih1
    · rw [hrank, hm, Nat.factorial_succ]
      have h1 : List.indexOf t pool * Nat.factorial m + rankGo (pool.erase t) rest
          < (List.indexOf t pool + 1) * Nat.factorial m := by
        rw [Nat.succ_mul]
        omega
      have h2 : (List.indexOf t pool + 1) * Nat.factorial m
          ≤ (m + 1) * Nat.factorial m := by
        apply Nat.mul_le_mul_right
        omega
      omega

/-- Claim C6 (confirmed): the permutation indexers are mutual inverses on
their domains: for `i < 16!`, `get_permutation` of the sorted pool at `i`
succeeds and `board_to_perm_index` maps the result back to `i`; and for any
permutation `B` of the sorted pool, `get_permutation` at
`board_to_perm_index B` returns `B`. -/
theorem C6_rank_unrank_inverses :
    (∀ i : Nat, i < Nat.factorial 16 →
      ∃ B, get_permutation sortedPool i = some B ∧ board_to_perm_index B = i)
    ∧ (∀ B : List Tile, B.Perm sortedPool →
      get_permutation sortedPool (board_to_perm_index B) = some B) := by
  have hnd : sortedPool.Nodup := by decide
  constructor
  · intro i hi
    refine ⟨unrankGo 16 sortedPool i, ?_, ?_⟩
    · rw [get_permutation, if_neg (by exact not_le.mpr hi)]
      rfl
    · exact rankGo_unrankGo 16 sortedPool rfl hnd i hi
  · intro B hperm
    obtain ⟨h1, h2⟩ := unrankGo_rankGo B sortedPool hnd hperm
    rw [get_permutation, if_neg (by exact not_le.mpr h2)]
    exact congrArg some h1

/-- Witness for C6: rank 5 round-trips, and the sorted pool itself (rank 0)
round-trips the other way. -/
theorem C6_rank_unrank_inverses_witness :
    (∃ B, get_permutation sortedPool 5 = some B ∧ board_to_perm_index B = 5)
    ∧ get_permutation sortedPool (board_to_perm_index sortedPool)
      = some sortedPool :=
  ⟨C6_rank_unrank_inverses.1 5 (by decide),
   C6_rank_unrank_inverses.2 sortedPool (List.Perm.refl _)⟩

/-- Witness for C3: row 0 and the top-left square are in the table. -/
theorem C3_nineteen_masks_witness :
    (rowMaskOf 0, OUT_ROW) ∈ WIN_MASKS ∧ (squareMaskOf 0 0, OUT_SQUARE) ∈ WIN_MASKS :=
  ⟨C3_nineteen_masks.2.2.1 0 (by decide),
   C3_nineteen_masks.2.2.2.2.2.2 0 (by decide) 0 (by decide)⟩
